import Mathlib

/-!
Shallow embedding of the shadow-detection engine of `cargo-light`
(`src/main.rs`), together with proofs of its specified properties.

The analysis core is a `syn` visitor (`ShadowCounter`) that pushes one
`Function` record per visited `ItemFn` / `ImplItemMethod` and, on every
`Local`, records the identifiers of the binding pattern into the most
recently pushed `Function`.  We model a traversal of one file as the
pre-order stream of visitor callbacks (`Event`s), the `HashMap<Ident,
Count>` as an association list keyed by the identifier's string (syn
`Ident` equality and hashing compare only the string), and the `panic!`
in `visit_local` as an `Except.error`.
-/

set_option maxHeartbeats 1000000

namespace CargoLight

/-- One recorded occurrence of an identifier: the source line (`loc`) and
whether it is the first (original) binding of that identifier in its
scope.  Mirrors `struct Case`. -/
structure Case where
  loc : Nat
  is_original : Bool
deriving Repr, DecidableEq

/-- Binding history of one identifier inside one function scope, in
discovery order.  Mirrors `struct Count`. -/
structure Count where
  locs : List Case
deriving Repr, DecidableEq

/-- `Count::new()`. -/
def Count.new : Count := ⟨[]⟩

/-- A `syn::Ident` together with the start line of its span. -/
structure Ident where
  name : String
  line : Nat
deriving Repr, DecidableEq

/-- The fragment of `syn::Pat` relevant to `get_idents`: a plain
identifier pattern, and the compound/destructuring patterns that the flat
scan skips. -/
inductive Pat where
  | ident (i : Ident)
  | tuple (elems : List Pat)
  | structPat (fields : List Pat)
  | wild
deriving Repr

/-- One function or method scope.  Mirrors `struct Function`; `vars`
models the `HashMap<Ident, Count>` as an association list keyed by the
identifier's string. -/
structure Function where
  name : String
  loc : Nat
  vars : List (String × Count)
  has_shadow : Bool
deriving Repr, DecidableEq

/-- `Function::new(name, loc)`. -/
def Function.new (name : String) (loc : Nat) : Function :=
  { name := name, loc := loc, vars := [], has_shadow := false }

/-- Mirrors `struct ShadowCounter`: the per-file analysis state. -/
structure ShadowCounter where
  funcs : List Function
  filename : String
  has_shadow : Bool
deriving Repr, DecidableEq

/-- `ShadowCounter::new(filename)`. -/
def ShadowCounter.new (filename : String) : ShadowCounter :=
  { funcs := [], filename := filename, has_shadow := false }

/-- `get_idents`: flat scan over the top-level punctuated patterns of a
`Local`; only `Pat::Ident` contributes an identifier, every other pattern
hits the `_ => continue` arm. -/
def get_idents : List Pat → List Ident
  | [] => []
  | p :: rest =>
    match p with
    | Pat.ident i => i :: get_idents rest
    | _ => get_idents rest

/-- `HashMap` lookup on the association-list model of `vars`. -/
def lookupVar : List (String × Count) → String → Option Count
  | [], _ => none
  | (k, c) :: rest, name => if k = name then some c else lookupVar rest name

/-- Writing back the updated `Count` obtained from
`vars.entry(i).or_insert(Count::new())`: replace the first entry with the
given key, or append a fresh entry at the end. -/
def setVar : List (String × Count) → String → Count → List (String × Count)
  | [], name, c => [(name, c)]
  | (k, c0) :: rest, name, c =>
    if k = name then (k, c) :: rest else (k, c0) :: setVar rest name c

/-- Body of the `for i in ids` loop of `visit_local`, restricted to the
binding map: `entry(i).or_insert(Count::new())`, `is_original =
count.locs.len() == 0`, `count.locs.push(Case::new(line, is_original))`.
Returns the updated map together with `is_shadow` (the negation of
`is_original`). -/
def record (vars : List (String × Count)) (name : String) (line : Nat) :
    List (String × Count) × Bool :=
  let count := (lookupVar vars name).getD Count.new
  let is_original : Bool := count.locs.length == 0
  (setVar vars name ⟨count.locs ++ [⟨line, is_original⟩]⟩, !is_original)

/-- Body of the `for i in ids` loop of `visit_local` for one identifier:
update the binding map of the current scope and, when the occurrence is a
shadow, set the scope's `has_shadow` and the file-level `has_shadow`. -/
def applyIdent (fc : Function) (fileShadow : Bool) (i : Ident) : Function × Bool :=
  let r := record fc.vars i.name i.line
  if r.2 then ({ fc with vars := r.1, has_shadow := true }, true)
  else ({ fc with vars := r.1 }, fileShadow)

/-- The whole `for i in ids` loop of `visit_local`. -/
def applyIdents : Function → Bool → List Ident → Function × Bool
  | fc, fileShadow, [] => (fc, fileShadow)
  | fc, fileShadow, i :: rest =>
    let r := applyIdent fc fileShadow i
    applyIdents r.1 r.2 rest

/-- The `panic!("Local without a function? ...")` raised by `visit_local`
when `self.funcs` is empty; it carries the line of the first extracted
identifier when there is one (when there is none, the `ids.get(0).unwrap()`
inside the panic message itself aborts). -/
inductive LogicError where
  | localOutsideFunction (line : Option Nat)
deriving Repr, DecidableEq

/-- `visit_item_fn`: push a fresh `Function` for the visited `ItemFn`. -/
def visit_item_fn (st : ShadowCounter) (name : String) (line : Nat) : ShadowCounter :=
  { st with funcs := st.funcs ++ [Function.new name line] }

/-- `visit_impl_item_method`: identical treatment to `visit_item_fn`. -/
def visit_impl_item_method (st : ShadowCounter) (name : String) (line : Nat) : ShadowCounter :=
  { st with funcs := st.funcs ++ [Function.new name line] }

/-- `visit_local`: extract the identifiers of the binding pattern, take
`self.funcs.last_mut()` as the current scope (aborting when there is
none), and record every identifier into it. -/
def visit_local (st : ShadowCounter) (pats : List Pat) : Except LogicError ShadowCounter :=
  let ids := get_idents pats
  match st.funcs.getLast? with
  | none => Except.error (LogicError.localOutsideFunction (ids.head?.map Ident.line))
  | some fc =>
    let r := applyIdents fc st.has_shadow ids
    Except.ok { st with funcs := st.funcs.dropLast ++ [r.1], has_shadow := r.2 }

/-- The pre-order stream of visitor callbacks produced by one file's
syntax tree: function items, methods inside `impl` blocks, and local
declarations (with the top-level patterns of the `Local`). -/
inductive Event where
  | itemFn (name : String) (line : Nat)
  | implItemMethod (name : String) (line : Nat)
  | localDecl (pats : List Pat)

/-- Dispatch of one visitor callback. -/
def step (st : ShadowCounter) : Event → Except LogicError ShadowCounter
  | Event.itemFn n l => Except.ok (visit_item_fn st n l)
  | Event.implItemMethod n l => Except.ok (visit_impl_item_method st n l)
  | Event.localDecl pats => visit_local st pats

/-- Run the visitor over the pre-order callback stream of one file; a
panic aborts the traversal. -/
def runEvents (st : ShadowCounter) : List Event → Except LogicError ShadowCounter
  | [] => Except.ok st
  | e :: rest =>
    match step st e with
    | Except.ok st' => runEvents st' rest
    | Except.error err => Except.error err

/-- One rendered line of `impl Display for Function`: the identifier, its
occurrence count (`val.locs.len()`), and the ordered occurrence list. -/
structure VarReport where
  ident : String
  count : Nat
  locs : List Case
deriving Repr, DecidableEq

/-- The rendered block for one function: header data plus the per-identifier
detail lines. -/
structure FuncReport where
  name : String
  loc : Nat
  vars : List VarReport
deriving Repr, DecidableEq

/-- The `for (key, val) in vars.iter()` loop of `impl Display for
Function`: an identifier is rendered exactly when `val.locs.len() != 1`. -/
def renderFunction : List (String × Count) → List VarReport
  | [] => []
  | (k, val) :: rest =>
    if val.locs.length ≠ 1 then ⟨k, val.locs.length, val.locs⟩ :: renderFunction rest
    else renderFunction rest

/-- `print_visitor`: after the filename header, print exactly the
functions with `has_shadow` set. -/
def print_visitor (counter : ShadowCounter) : List FuncReport :=
  counter.funcs.filterMap fun f =>
    if f.has_shadow then some ⟨f.name, f.loc, renderFunction f.vars⟩ else none

/-- One input file of a batch run, reduced to what the driver observes:
either `syn::parse_file` fails, or it yields a syntax tree whose traversal
produces the given callback stream. -/
inductive FileSource where
  | parseFail
  | parsed (events : List Event)

/-- A file handed to the batch driver. -/
structure InputFile where
  filename : String
  source : FileSource

/-- A panic that escapes the batch loop in `main`: the
`.expect("Unable to parse file")` on a parse failure in the explicit-files
branch, or a `LogicError` panic escaping `visit_local`. -/
inductive BatchError where
  | parsePanic (filename : String)
  | logicPanic (filename : String) (err : LogicError)
deriving Repr, DecidableEq

/-- The `--files` branch of `main`: for each file, parse with `.expect`
(a parse failure panics and aborts the whole run), traverse (a
`LogicError` panic aborts the whole run), and always print the report. -/
def processExplicit : List InputFile → Except BatchError (List (String × List FuncReport))
  | [] => Except.ok []
  | f :: rest =>
    match f.source with
    | FileSource.parseFail => Except.error (BatchError.parsePanic f.filename)
    | FileSource.parsed es =>
      match runEvents (ShadowCounter.new f.filename) es with
      | Except.error e => Except.error (BatchError.logicPanic f.filename e)
      | Except.ok st =>
        match processExplicit rest with
        | Except.error e => Except.error e
        | Except.ok out => Except.ok ((f.filename, print_visitor st) :: out)

/-- The directory-walk branch of `main`: a parse failure is reported with
`eprintln!` and skipped (`continue`), a `LogicError` panic still aborts
the whole run, and a file's report is printed only when its
`has_shadow` flag is set. -/
def processWalk : List InputFile → Except BatchError (List (String × List FuncReport))
  | [] => Except.ok []
  | f :: rest =>
    match f.source with
    | FileSource.parseFail => processWalk rest
    | FileSource.parsed es =>
      match runEvents (ShadowCounter.new f.filename) es with
      | Except.error e => Except.error (BatchError.logicPanic f.filename e)
      | Except.ok st =>
        match processWalk rest with
        | Except.error e => Except.error e
        | Except.ok out =>
          Except.ok (if st.has_shadow then (f.filename, print_visitor st) :: out else out)

/-- Well-formedness of one binding history: it is nonempty, its first
occurrence is original, and every later occurrence is a shadow. -/
def historyOk : List Case → Prop
  | [] => False
  | c :: rest => c.is_original = true ∧ ∀ c2 ∈ rest, c2.is_original = false

/-! ### Association-list lemmas for the binding map -/

lemma lookup_setVar_self (vars : List (String × Count)) (n : String) (c : Count) :
    lookupVar (setVar vars n c) n = some c := by
  induction vars with
  | nil => simp [setVar, lookupVar]
  | cons kc rest ih =>
    obtain ⟨k, c0⟩ := kc
    by_cases h : k = n
    · simp [setVar, lookupVar, h]
    · simp [setVar, lookupVar, h, ih]

lemma lookup_setVar_ne (vars : List (String × Count)) (n k : String) (c : Count)
    (h : k ≠ n) : lookupVar (setVar vars n c) k = lookupVar vars k := by
  induction vars with
  | nil => simp [setVar, lookupVar, Ne.symm h]
  | cons kc rest ih =>
    obtain ⟨k0, c0⟩ := kc
    by_cases h0 : k0 = n
    · subst h0
      simp [setVar, lookupVar, Ne.symm h]
    · by_cases h1 : k0 = k
      · subst h1
        simp [setVar, h0, lookupVar]
      · simp [setVar, h0, lookupVar, h1, ih]

lemma setVar_absent (vars : List (String × Count)) (n : String) (c : Count)
    (h : lookupVar vars n = none) : setVar vars n c = vars ++ [(n, c)] := by
  induction vars with
  | nil => simp [setVar]
  | cons kc rest ih =>
    obtain ⟨k, c0⟩ := kc
    by_cases h0 : k = n
    · simp [lookupVar, h0] at h
    · simp only [lookupVar, if_neg h0] at h
      simp [setVar, h0, ih h]

lemma lookup_none_not_mem (vars : List (String × Count)) (n : String)
    (h : lookupVar vars n = none) : n ∉ vars.map Prod.fst := by
  induction vars with
  | nil => simp
  | cons kc rest ih =>
    obtain ⟨k, c0⟩ := kc
    by_cases h0 : k = n
    · simp [lookupVar, h0] at h
    · simp only [lookupVar, if_neg h0] at h
      simp [Ne.symm h0, ih h]

lemma keys_setVar_present (vars : List (String × Count)) (n : String) (c c0 : Count)
    (h : lookupVar vars n = some c0) :
    (setVar vars n c).map Prod.fst = vars.map Prod.fst := by
  induction vars with
  | nil => simp [lookupVar] at h
  | cons kc rest ih =>
    obtain ⟨k, c1⟩ := kc
    by_cases h0 : k = n
    · simp [setVar, h0]
    · simp only [lookupVar, if_neg h0] at h
      simp [setVar, h0, ih h]

lemma mem_setVar (vars : List (String × Count)) (n : String) (c : Count)
    (kc : String × Count) (h : kc ∈ setVar vars n c) : kc = (n, c) ∨ kc ∈ vars := by
  induction vars with
  | nil =>
    simp only [setVar, List.mem_singleton] at h
    exact Or.inl h
  | cons kc0 rest ih =>
    obtain ⟨k, c1⟩ := kc0
    by_cases h0 : k = n
    · subst h0
      simp only [setVar, if_pos rfl] at h
      rcases List.mem_cons.mp h with h1 | h1
      · exact Or.inl h1
      · exact Or.inr (List.mem_cons_of_mem _ h1)
    · simp only [setVar, if_neg h0] at h
      rcases List.mem_cons.mp h with h1 | h1
      · exact Or.inr (by rw [h1]; exact List.mem_cons_self _ _)
      · rcases ih h1 with h2 | h2
        · exact Or.inl h2
        · exact Or.inr (List.mem_cons_of_mem _ h2)

lemma setVar_mem_self (vars : List (String × Count)) (n : String) (c c0 : Count)
    (h : lookupVar vars n = some c0) : (n, c) ∈ setVar vars n c := by
  induction vars with
  | nil => simp [lookupVar] at h
  | cons kc rest ih =>
    obtain ⟨k, c1⟩ := kc
    by_cases h0 : k = n
    · subst h0
      simp [setVar]
    · simp only [lookupVar, if_neg h0] at h
      simp only [setVar, if_neg h0, List.mem_cons]
      exact Or.inr (ih h)

lemma lookup_mem (vars : List (String × Count)) (k : String) (c : Count)
    (h : lookupVar vars k = some c) : (k, c) ∈ vars := by
  induction vars with
  | nil => simp [lookupVar] at h
  | cons kc rest ih =>
    obtain ⟨k0, c0⟩ := kc
    by_cases h0 : k0 = k
    · subst h0
      simp only [lookupVar, eq_self_iff_true, if_true, Option.some.injEq] at h
      subst h
      exact List.mem_cons_self _ _
    · simp only [lookupVar, if_neg h0] at h
      exact List.mem_cons_of_mem _ (ih h)

lemma mem_lookup_of_nodup (vars : List (String × Count)) (k : String) (c : Count)
    (hnd : (vars.map Prod.fst).Nodup) (h : (k, c) ∈ vars) : lookupVar vars k = some c := by
  induction vars with
  | nil => simp at h
  | cons kc rest ih =>
    obtain ⟨k0, c0⟩ := kc
    simp only [List.map_cons, List.nodup_cons] at hnd
    rcases List.mem_cons.mp h with h1 | h1
    · injection h1 with e1 e2
      subst e1
      subst e2
      simp [lookupVar]
    · by_cases h0 : k0 = k
      · subst h0
        exact absurd (List.mem_map_of_mem Prod.fst h1) hnd.1
      · simp only [lookupVar, if_neg h0]
        exact ih hnd.2 h1

/-! ### Binding-history lemmas -/

lemma historyOk_singleton (l : Nat) : historyOk [⟨l, true⟩] := by
  refine ⟨rfl, ?_⟩
  simp

lemma historyOk_append (locs : List Case) (h : historyOk locs) (l : Nat) :
    historyOk (locs ++ [⟨l, false⟩]) := by
  match locs, h with
  | c :: rest, ⟨h1, h2⟩ =>
    refine ⟨h1, ?_⟩
    intro c2 hc2
    rcases List.mem_append.mp hc2 with h3 | h3
    · exact h2 c2 h3
    · simp at h3
      simp [h3]

lemma historyOk_ne_nil (locs : List Case) (h : historyOk locs) : locs ≠ [] := by
  intro e
  subst e
  exact h

/-! ### Characterization of one recording step -/

lemma record_absent (vars : List (String × Count)) (name : String) (line : Nat)
    (h : lookupVar vars name = none) :
    record vars name line = (vars ++ [(name, Count.mk [Case.mk line true])], false) := by
  simp [record, h, Count.new, setVar_absent vars name _ h]

lemma record_present (vars : List (String × Count)) (name : String) (line : Nat) (c : Count)
    (h : lookupVar vars name = some c) (hne : c.locs ≠ []) :
    record vars name line =
      (setVar vars name (Count.mk (c.locs ++ [Case.mk line false])), true) := by
  have hlen : (c.locs.length == 0) = false := by
    simp [hne]
  simp [record, h, hlen]

/-! ### One identifier through `visit_local`'s loop body -/

lemma applyIdent_absent (fc : Function) (b : Bool) (i : Ident)
    (h : lookupVar fc.vars i.name = none) :
    applyIdent fc b i =
      ({ fc with vars := fc.vars ++ [(i.name, Count.mk [Case.mk i.line true])] }, b) := by
  simp [applyIdent, record_absent fc.vars i.name i.line h]

lemma applyIdent_present (fc : Function) (b : Bool) (i : Ident) (c : Count)
    (h : lookupVar fc.vars i.name = some c) (hne : c.locs ≠ []) :
    applyIdent fc b i =
      ({ fc with
          vars := setVar fc.vars i.name (Count.mk (c.locs ++ [Case.mk i.line false])),
          has_shadow := true },
        true) := by
  simp [applyIdent, record_present fc.vars i.name i.line c h hne]

lemma applyIdent_vars (fc : Function) (b : Bool) (i : Ident) :
    (applyIdent fc b i).1.vars = (record fc.vars i.name i.line).1 := by
  by_cases h : (record fc.vars i.name i.line).2 = true <;> simp [applyIdent, h]

lemma applyIdent_shadow (fc : Function) (b : Bool) (i : Ident) :
    ∃ s : Bool, (applyIdent fc b i).1.has_shadow = (fc.has_shadow || s) ∧
      (applyIdent fc b i).2 = (b || s) := by
  by_cases h : (record fc.vars i.name i.line).2 = true
  · exact ⟨true, by simp [applyIdent, h]⟩
  · exact ⟨false, by simp [applyIdent, h]⟩

lemma applyIdents_shadow (ids : List Ident) : ∀ (fc : Function) (b : Bool),
    ∃ s : Bool, (applyIdents fc b ids).1.has_shadow = (fc.has_shadow || s) ∧
      (applyIdents fc b ids).2 = (b || s) := by
  induction ids with
  | nil =>
    intro fc b
    exact ⟨false, by simp [applyIdents], by simp [applyIdents]⟩
  | cons i rest ih =>
    intro fc b
    obtain ⟨s1, hs1, hs2⟩ := applyIdent_shadow fc b i
    obtain ⟨s2, ht1, ht2⟩ := ih (applyIdent fc b i).1 (applyIdent fc b i).2
    refine ⟨s1 || s2, ?_, ?_⟩
    · simp only [applyIdents]
      rw [ht1, hs1, Bool.or_assoc]
    · simp only [applyIdents]
      rw [ht2, hs2, Bool.or_assoc]

/-! ### The per-scope and per-file invariants maintained by the visitor -/

/-- Well-formedness of one `Function` scope: binding-map keys are distinct,
every history is nonempty with the original occurrence first, and
`has_shadow` holds exactly when some history has more than one
occurrence. -/
def funcInv (f : Function) : Prop :=
  (f.vars.map Prod.fst).Nodup ∧
  (∀ kc ∈ f.vars, historyOk kc.2.locs) ∧
  (f.has_shadow = true ↔ ∃ kc ∈ f.vars, 1 < kc.2.locs.length)

/-- Well-formedness of the whole per-file state: every scope satisfies
`funcInv` and the file-level `has_shadow` holds exactly when some scope's
does. -/
def stateInv (st : ShadowCounter) : Prop :=
  (∀ f ∈ st.funcs, funcInv f) ∧
  (st.has_shadow = true ↔ ∃ f ∈ st.funcs, f.has_shadow = true)

lemma applyIdent_funcInv (fc : Function) (b : Bool) (i : Ident) (h : funcInv fc) :
    funcInv (applyIdent fc b i).1 := by
  obtain ⟨hnd, hok, hsh⟩ := h
  cases hl : lookupVar fc.vars i.name with
  | none =>
    rw [applyIdent_absent fc b i hl]
    refine ⟨?_, ?_, ?_⟩
    · have hnm := lookup_none_not_mem fc.vars i.name hl
      simp only [List.map_append, List.map_cons, List.map_nil]
      simp [List.nodup_append, hnd, hnm]
    · intro kc hkc
      rcases List.mem_append.mp hkc with h1 | h1
      · exact hok kc h1
      · rw [List.mem_singleton] at h1
        rw [h1]
        exact historyOk_singleton i.line
    · constructor
      · intro ht
        obtain ⟨kc, hm, hlen⟩ := hsh.mp ht
        exact ⟨kc, List.mem_append_left _ hm, hlen⟩
      · rintro ⟨kc, hm, hlen⟩
        rcases List.mem_append.mp hm with h1 | h1
        · exact hsh.mpr ⟨kc, h1, hlen⟩
        · rw [List.mem_singleton] at h1
          rw [h1] at hlen
          simp at hlen
  | some c =>
    have hmem := lookup_mem fc.vars i.name c hl
    have hco : historyOk c.locs := hok _ hmem
    have hne := historyOk_ne_nil c.locs hco
    rw [applyIdent_present fc b i c hl hne]
    refine ⟨?_, ?_, ?_⟩
    · rw [keys_setVar_present fc.vars i.name _ c hl]
      exact hnd
    · intro kc hkc
      rcases mem_setVar fc.vars i.name _ kc hkc with h1 | h1
      · rw [h1]
        exact historyOk_append c.locs hco i.line
      · exact hok kc h1
    · refine iff_of_true rfl ?_
      refine ⟨(i.name, Count.mk (c.locs ++ [Case.mk i.line false])),
        setVar_mem_self fc.vars i.name _ c hl, ?_⟩
      have hpos : 0 < c.locs.length := List.length_pos.mpr hne
      simp [Nat.lt_succ_iff]
      omega

lemma applyIdents_funcInv (ids : List Ident) : ∀ (fc : Function) (b : Bool),
    funcInv fc → funcInv (applyIdents fc b ids).1 := by
  induction ids with
  | nil =>
    intro fc b h
    simpa [applyIdents] using h
  | cons i rest ih =>
    intro fc b h
    simp only [applyIdents]
    exact ih _ _ (applyIdent_funcInv fc b i h)

/-! ### Monotonicity of the binding-map domain -/

lemma record_lookup_isSome (vars : List (String × Count)) (n : String) (l : Nat) (k : String)
    (h : k = n ∨ (lookupVar vars k).isSome = true) :
    (lookupVar (record vars n l).1 k).isSome = true := by
  rcases h with rfl | h
  · simp [record, lookup_setVar_self]
  · by_cases hk : k = n
    · subst hk
      simp [record, lookup_setVar_self]
    · simp only [record]
      rw [lookup_setVar_ne _ _ _ _ hk]
      exact h

lemma applyIdent_lookup_mono (fc : Function) (b : Bool) (i : Ident) (k : String)
    (h : k = i.name ∨ (lookupVar fc.vars k).isSome = true) :
    (lookupVar (applyIdent fc b i).1.vars k).isSome = true := by
  rw [applyIdent_vars]
  exact record_lookup_isSome fc.vars i.name i.line k h

lemma applyIdents_lookup_mono (ids : List Ident) : ∀ (fc : Function) (b : Bool) (k : String),
    (lookupVar fc.vars k).isSome = true →
    (lookupVar (applyIdents fc b ids).1.vars k).isSome = true := by
  induction ids with
  | nil =>
    intro fc b k h
    simpa [applyIdents] using h
  | cons i rest ih =>
    intro fc b k h
    simp only [applyIdents]
    exact ih _ _ k (applyIdent_lookup_mono fc b i k (Or.inr h))

lemma applyIdents_lookup (ids : List Ident) : ∀ (fc : Function) (b : Bool) (i : Ident),
    i ∈ ids → (lookupVar (applyIdents fc b ids).1.vars i.name).isSome = true := by
  induction ids with
  | nil =>
    intro fc b i h
    simp at h
  | cons j rest ih =>
    intro fc b i h
    simp only [applyIdents]
    rcases List.mem_cons.mp h with rfl | h1
    · exact applyIdents_lookup_mono rest _ _ i.name
        (applyIdent_lookup_mono fc b i i.name (Or.inl rfl))
    · exact ih _ _ i h1

/-! ### `visit_local` on a state whose scope list is decomposed -/

lemma visit_local_concat (st : ShadowCounter) (fs : List Function) (fc : Function)
    (pats : List Pat) (h : st.funcs = fs ++ [fc]) :
    visit_local st pats =
      Except.ok { st with
        funcs := fs ++ [(applyIdents fc st.has_shadow (get_idents pats)).1],
        has_shadow := (applyIdents fc st.has_shadow (get_idents pats)).2 } := by
  simp only [visit_local, h, List.getLast?_concat, List.dropLast_concat]

/-! ### Preservation of the invariant by every visitor callback -/

lemma stateInv_new (fn : String) : stateInv (ShadowCounter.new fn) := by
  constructor
  · intro f hf
    simp [ShadowCounter.new] at hf
  · simp [ShadowCounter.new]

lemma funcInv_new (n : String) (l : Nat) : funcInv (Function.new n l) := by
  refine ⟨by simp [Function.new], ?_, ?_⟩
  · intro kc hkc
    simp [Function.new] at hkc
  · simp [Function.new]

lemma visit_item_fn_inv (st : ShadowCounter) (n : String) (l : Nat) (h : stateInv st) :
    stateInv (visit_item_fn st n l) := by
  obtain ⟨h1, h2⟩ := h
  constructor
  · intro f hf
    simp only [visit_item_fn] at hf
    rcases List.mem_append.mp hf with hm | hm
    · exact h1 f hm
    · rw [List.mem_singleton] at hm
      rw [hm]
      exact funcInv_new n l
  · simp only [visit_item_fn]
    constructor
    · intro ht
      obtain ⟨f, hm, hs⟩ := h2.mp ht
      exact ⟨f, List.mem_append_left _ hm, hs⟩
    · rintro ⟨f, hm, hs⟩
      rcases List.mem_append.mp hm with hm | hm
      · exact h2.mpr ⟨f, hm, hs⟩
      · rw [List.mem_singleton] at hm
        rw [hm] at hs
        simp [Function.new] at hs

lemma visit_impl_item_method_eq (st : ShadowCounter) (n : String) (l : Nat) :
    visit_impl_item_method st n l = visit_item_fn st n l := rfl

lemma visit_local_inv (st st' : ShadowCounter) (pats : List Pat)
    (h : stateInv st) (hok : visit_local st pats = Except.ok st') : stateInv st' := by
  obtain ⟨h1, h2⟩ := h
  cases hlast : st.funcs.getLast? with
  | none =>
    simp only [visit_local, hlast] at hok
    exact Except.noConfusion hok
  | some fc =>
    have hne : st.funcs ≠ [] := by
      intro e
      rw [e] at hlast
      simp at hlast
    rcases List.eq_nil_or_concat st.funcs with e | ⟨fs, a, hsplit⟩
    · exact absurd e hne
    · rw [List.concat_eq_append] at hsplit
      have ha : a = fc := by
        rw [hsplit, List.getLast?_concat] at hlast
        injection hlast
      rw [ha] at hsplit
      rw [visit_local_concat st fs fc pats hsplit] at hok
      injection hok with hok
      subst hok
      have hfcmem : fc ∈ st.funcs := by
        rw [hsplit]
        exact List.mem_append_right _ (List.mem_singleton_self _)
      constructor
      · intro f hf
        rcases List.mem_append.mp hf with hm | hm
        · exact h1 f (by rw [hsplit]; exact List.mem_append_left _ hm)
        · rw [List.mem_singleton] at hm
          rw [hm]
          exact applyIdents_funcInv (get_idents pats) fc st.has_shadow (h1 fc hfcmem)
      · obtain ⟨s, hs1, hs2⟩ := applyIdents_shadow (get_idents pats) fc st.has_shadow
        show (applyIdents fc st.has_shadow (get_idents pats)).2 = true ↔
          ∃ f ∈ fs ++ [(applyIdents fc st.has_shadow (get_idents pats)).1], f.has_shadow = true
        rw [hs2, Bool.or_eq_true]
        constructor
        · rintro (ht | ht)
          · obtain ⟨f, hm, hs⟩ := h2.mp ht
            rw [hsplit] at hm
            rcases List.mem_append.mp hm with hm | hm
            · exact ⟨f, List.mem_append_left _ hm, hs⟩
            · rw [List.mem_singleton] at hm
              rw [hm] at hs
              refine ⟨(applyIdents fc st.has_shadow (get_idents pats)).1,
                List.mem_append_right _ (List.mem_singleton_self _), ?_⟩
              rw [hs1, hs]
              simp
          · refine ⟨(applyIdents fc st.has_shadow (get_idents pats)).1,
              List.mem_append_right _ (List.mem_singleton_self _), ?_⟩
            rw [hs1, ht]
            simp
        · rintro ⟨f, hm, hs⟩
          rcases List.mem_append.mp hm with hm | hm
          · exact Or.inl (h2.mpr ⟨f, by rw [hsplit]; exact List.mem_append_left _ hm, hs⟩)
          · rw [List.mem_singleton] at hm
            rw [hm] at hs
            rw [hs1, Bool.or_eq_true] at hs
            rcases hs with hs3 | hs3
            · exact Or.inl (h2.mpr ⟨fc, hfcmem, hs3⟩)
            · exact Or.inr hs3

lemma runEvents_inv (es : List Event) : ∀ (st st' : ShadowCounter),
    stateInv st → runEvents st es = Except.ok st' → stateInv st' := by
  induction es with
  | nil =>
    intro st st' h hok
    simp only [runEvents] at hok
    injection hok with hok
    subst hok
    exact h
  | cons e rest ih =>
    intro st st' h hok
    cases e with
    | itemFn n l =>
      simp only [runEvents, step] at hok
      exact ih _ _ (visit_item_fn_inv st n l h) hok
    | implItemMethod n l =>
      simp only [runEvents, step, visit_impl_item_method_eq] at hok
      exact ih _ _ (visit_item_fn_inv st n l h) hok
    | localDecl pats =>
      cases hv : visit_local st pats with
      | error err =>
        simp only [runEvents, step, hv] at hok
        exact Except.noConfusion hok
      | ok st1 =>
        simp only [runEvents, step, hv] at hok
        exact ih _ _ (visit_local_inv st st1 pats h hv) hok

/-! ### Characterization of the rendered report -/

lemma mem_renderFunction (vars : List (String × Count)) (v : VarReport) :
    v ∈ renderFunction vars ↔
      ∃ kc ∈ vars, kc.2.locs.length ≠ 1 ∧
        v = VarReport.mk kc.1 kc.2.locs.length kc.2.locs := by
  induction vars with
  | nil => simp [renderFunction]
  | cons kc rest ih =>
    obtain ⟨k, c⟩ := kc
    by_cases hlen : c.locs.length ≠ 1
    · simp only [renderFunction, if_pos hlen, List.mem_cons, ih]
      constructor
      · rintro (h | ⟨kc2, hm, hl, hv⟩)
        · exact ⟨(k, c), Or.inl rfl, hlen, h⟩
        · exact ⟨kc2, Or.inr hm, hl, hv⟩
      · rintro ⟨kc2, hm, hl, hv⟩
        rcases hm with h2 | h2
        · subst h2
          exact Or.inl hv
        · exact Or.inr ⟨kc2, h2, hl, hv⟩
    · simp only [renderFunction, if_neg hlen, List.mem_cons, ih]
      constructor
      · rintro ⟨kc2, hm, hl, hv⟩
        exact ⟨kc2, Or.inr hm, hl, hv⟩
      · rintro ⟨kc2, hm, hl, hv⟩
        rcases hm with h2 | h2
        · subst h2
          exact absurd hl hlen
        · exact ⟨kc2, h2, hl, hv⟩

lemma mem_print_visitor (st : ShadowCounter) (r : FuncReport) :
    r ∈ print_visitor st ↔
      ∃ f ∈ st.funcs, f.has_shadow = true ∧
        r = FuncReport.mk f.name f.loc (renderFunction f.vars) := by
  rw [print_visitor, List.mem_filterMap]
  constructor
  · rintro ⟨f, hf, hr⟩
    by_cases hs : f.has_shadow = true
    · rw [if_pos hs] at hr
      injection hr with hr
      exact ⟨f, hf, hs, hr.symm⟩
    · rw [if_neg hs] at hr
      cases hr
  · rintro ⟨f, hf, hs, hr⟩
    refine ⟨f, hf, ?_⟩
    rw [if_pos hs, hr]

/-! ### Concrete scenarios used as witnesses -/

/-- Scenario A of the spec: a function `f` (line 1) redeclares `x` at
lines 2 and 3. -/
def scenarioA : List Event :=
  [Event.itemFn "f" 1, Event.localDecl [Pat.ident ⟨"x", 2⟩], Event.localDecl [Pat.ident ⟨"x", 3⟩]]

/-- The scope the visitor computes for scenario A. -/
def scenarioA_func : Function :=
  ⟨"f", 1, [("x", Count.mk [Case.mk 2 true, Case.mk 3 false])], true⟩

/-- The analysis state the visitor computes for scenario A. -/
def scenarioA_state : ShadowCounter :=
  ⟨[scenarioA_func], "a.rs", true⟩

/-! ### The claims -/

/-- C1: recording an occurrence when the identifier is absent from the
scope's binding map creates a new one-element history whose occurrence has
`is_original = true` and reports `is_shadow = false`; recording when the
identifier is already present (its history being nonempty, as every
reachable history is) appends an occurrence with `is_original = false` and
reports `is_shadow = true`; consequently, in every scope of a completed
traversal, every identifier's history is nonempty, its first occurrence
has `is_original = true` and every later occurrence has
`is_original = false`. -/
theorem c1_record_original_then_shadows :
    (∀ (vars : List (String × Count)) (name : String) (line : Nat),
        lookupVar vars name = none →
        record vars name line = (vars ++ [(name, Count.mk [Case.mk line true])], false)) ∧
    (∀ (vars : List (String × Count)) (name : String) (line : Nat) (c : Count),
        lookupVar vars name = some c → c.locs ≠ [] →
        record vars name line =
          (setVar vars name (Count.mk (c.locs ++ [Case.mk line false])), true)) ∧
    (∀ (fn : String) (es : List Event) (st : ShadowCounter),
        runEvents (ShadowCounter.new fn) es = Except.ok st →
        ∀ f ∈ st.funcs, ∀ kc ∈ f.vars, historyOk kc.2.locs) := by
  refine ⟨record_absent, record_present, ?_⟩
  intro fn es st hok f hf kc hkc
  exact ((runEvents_inv es _ _ (stateInv_new fn) hok).1 f hf).2.1 kc hkc

/-- Witness for C1: the behavior on scenario A's data. -/
theorem c1_witness :
    record [] "x" 5 = ([("x", Count.mk [Case.mk 5 true])], false) ∧
    record [("x", Count.mk [Case.mk 5 true])] "x" 7 =
      (setVar [("x", Count.mk [Case.mk 5 true])] "x"
        (Count.mk [Case.mk 5 true, Case.mk 7 false]), true) ∧
    historyOk (Count.mk [Case.mk 2 true, Case.mk 3 false]).locs :=
  ⟨c1_record_original_then_shadows.1 [] "x" 5 rfl,
   c1_record_original_then_shadows.2.1 [("x", Count.mk [Case.mk 5 true])] "x" 7
     (Count.mk [Case.mk 5 true]) rfl (by decide),
   c1_record_original_then_shadows.2.2 "a.rs" scenarioA scenarioA_state rfl
     scenarioA_func (by decide) ("x", Count.mk [Case.mk 2 true, Case.mk 3 false]) (by decide)⟩

/-- C2: after any complete traversal, every recorded scope's `has_shadow`
is true iff some identifier in it has more than one recorded occurrence,
and the file-level `has_shadow` is true iff some recorded scope's
`has_shadow` is true. -/
theorem c2_has_shadow_iff (fn : String) (es : List Event) (st : ShadowCounter)
    (h : runEvents (ShadowCounter.new fn) es = Except.ok st) :
    (∀ f ∈ st.funcs, (f.has_shadow = true ↔ ∃ kc ∈ f.vars, 1 < kc.2.locs.length)) ∧
    (st.has_shadow = true ↔ ∃ f ∈ st.funcs, f.has_shadow = true) := by
  have hinv := runEvents_inv es _ _ (stateInv_new fn) h
  exact ⟨fun f hf => (hinv.1 f hf).2.2, hinv.2⟩

/-- Witness for C2 on scenario A. -/
theorem c2_witness :
    (scenarioA_func.has_shadow = true ↔ ∃ kc ∈ scenarioA_func.vars, 1 < kc.2.locs.length) ∧
    (scenarioA_state.has_shadow = true ↔ ∃ f ∈ scenarioA_state.funcs, f.has_shadow = true) :=
  ⟨(c2_has_shadow_iff "a.rs" scenarioA scenarioA_state rfl).1 scenarioA_func (by decide),
   (c2_has_shadow_iff "a.rs" scenarioA scenarioA_state rfl).2⟩

/-- C3 counterexample: a file whose first callback is a local declaration
before any scope aborts the whole batch run (the visitor's `panic!` is
not caught anywhere), so the second file is never analyzed — contradicting
the claim that the batch run continues with the remaining files. -/
theorem c3_counterexample :
    processWalk [⟨"bad.rs", FileSource.parsed [Event.localDecl [Pat.ident ⟨"x", 1⟩]]⟩,
                 ⟨"good.rs", FileSource.parsed [Event.itemFn "f" 1]⟩] =
      Except.error (BatchError.logicPanic "bad.rs" (LogicError.localOutsideFunction (some 1))) :=
  rfl

/-- C3 (amended): a local declaration encountered before any scope has
been opened raises the LogicError panic; the panic aborts that file's
traversal AND the entire batch run, in both the directory-walk and the
explicit-files branch — the remaining files are not processed. -/
theorem c3_local_outside_scope_panics (fn : String) (es : List Event) (e : LogicError)
    (rest : List InputFile)
    (h : runEvents (ShadowCounter.new fn) es = Except.error e) :
    (∀ pats : List Pat,
        visit_local (ShadowCounter.new fn) pats =
          Except.error (LogicError.localOutsideFunction ((get_idents pats).head?.map Ident.line))) ∧
    processWalk (⟨fn, FileSource.parsed es⟩ :: rest) =
      Except.error (BatchError.logicPanic fn e) ∧
    processExplicit (⟨fn, FileSource.parsed es⟩ :: rest) =
      Except.error (BatchError.logicPanic fn e) := by
  refine ⟨?_, ?_, ?_⟩
  · intro pats
    simp [visit_local, ShadowCounter.new]
  · simp [processWalk, h]
  · simp [processExplicit, h]

/-- Witness for C3 (amended) on a one-file batch. -/
theorem c3_witness :
    visit_local (ShadowCounter.new "bad.rs") [Pat.ident ⟨"x", 1⟩] =
      Except.error (LogicError.localOutsideFunction (some 1)) ∧
    processWalk [⟨"bad.rs", FileSource.parsed [Event.localDecl [Pat.ident ⟨"x", 1⟩]]⟩] =
      Except.error (BatchError.logicPanic "bad.rs" (LogicError.localOutsideFunction (some 1))) ∧
    processExplicit [⟨"bad.rs", FileSource.parsed [Event.localDecl [Pat.ident ⟨"x", 1⟩]]⟩] =
      Except.error (BatchError.logicPanic "bad.rs" (LogicError.localOutsideFunction (some 1))) :=
  ⟨(c3_local_outside_scope_panics "bad.rs" [Event.localDecl [Pat.ident ⟨"x", 1⟩]]
      (LogicError.localOutsideFunction (some 1)) [] rfl).1 [Pat.ident ⟨"x", 1⟩],
   (c3_local_outside_scope_panics "bad.rs" [Event.localDecl [Pat.ident ⟨"x", 1⟩]]
      (LogicError.localOutsideFunction (some 1)) [] rfl).2.1,
   (c3_local_outside_scope_panics "bad.rs" [Event.localDecl [Pat.ident ⟨"x", 1⟩]]
      (LogicError.localOutsideFunction (some 1)) [] rfl).2.2⟩

/-- C4: the identifiers of a local declaration are recorded into the most
recently opened scope — the last element of `funcs` — leaving every
earlier-opened scope untouched; concretely, a local that is traversed
after a nested inner function was opened is attributed to the inner
function, not to its lexical parent. -/
theorem c4_attributed_to_last_opened (st st' : ShadowCounter) (fs : List Function)
    (fc : Function) (pats : List Pat)
    (h : st.funcs = fs ++ [fc]) (hok : visit_local st pats = Except.ok st') :
    (∃ fc', st'.funcs = fs ++ [fc'] ∧
        ∀ i ∈ get_idents pats, (lookupVar fc'.vars i.name).isSome = true) ∧
    runEvents (ShadowCounter.new "nested.rs")
        [Event.itemFn "outer" 1, Event.itemFn "inner" 2,
         Event.localDecl [Pat.ident ⟨"x", 3⟩]] =
      Except.ok ⟨[⟨"outer", 1, [], false⟩,
        ⟨"inner", 2, [("x", Count.mk [Case.mk 3 true])], false⟩], "nested.rs", false⟩ := by
  constructor
  · rw [visit_local_concat st fs fc pats h] at hok
    injection hok with hok
    subst hok
    refine ⟨(applyIdents fc st.has_shadow (get_idents pats)).1, rfl, ?_⟩
    intro i hi
    exact applyIdents_lookup (get_idents pats) fc st.has_shadow i hi
  · rfl

/-- Witness for C4 on a one-function state. -/
theorem c4_witness :
    (∃ fc', (⟨[⟨"g", 1, [("y", Count.mk [Case.mk 2 true])], false⟩], "w4.rs", false⟩ :
          ShadowCounter).funcs = [] ++ [fc'] ∧
        ∀ i ∈ get_idents [Pat.ident ⟨"y", 2⟩], (lookupVar fc'.vars i.name).isSome = true) ∧
    runEvents (ShadowCounter.new "nested.rs")
        [Event.itemFn "outer" 1, Event.itemFn "inner" 2,
         Event.localDecl [Pat.ident ⟨"x", 3⟩]] =
      Except.ok ⟨[⟨"outer", 1, [], false⟩,
        ⟨"inner", 2, [("x", Count.mk [Case.mk 3 true])], false⟩], "nested.rs", false⟩ :=
  c4_attributed_to_last_opened ⟨[Function.new "g" 1], "w4.rs", false⟩
    ⟨[⟨"g", 1, [("y", Count.mk [Case.mk 2 true])], false⟩], "w4.rs", false⟩
    [] (Function.new "g" 1) [Pat.ident ⟨"y", 2⟩] rfl rfl

/-- C5 counterexample: in the explicit-files branch of `main`, a parse
failure hits `.expect("Unable to parse file")` and panics, aborting the
whole run — the second file is never processed, contradicting the claim
that parse failures are skipped with a warning whether the file came from
an explicit list or a directory walk. -/
theorem c5_counterexample :
    processExplicit [⟨"bad.rs", FileSource.parseFail⟩,
                     ⟨"good.rs", FileSource.parsed [Event.itemFn "f" 1]⟩] =
      Except.error (BatchError.parsePanic "bad.rs") :=
  rfl

/-- C5 (amended): in the directory-walk branch a parse failure is skipped
with a warning and the batch continues with the remaining files; in the
explicit-files branch a parse failure panics and aborts the run. -/
theorem c5_parse_failure_policy (fn : String) (rest : List InputFile) :
    processWalk (⟨fn, FileSource.parseFail⟩ :: rest) = processWalk rest ∧
    processExplicit (⟨fn, FileSource.parseFail⟩ :: rest) =
      Except.error (BatchError.parsePanic fn) :=
  ⟨rfl, rfl⟩

/-- C6: the rendered report contains exactly the scopes with
`has_shadow = true`; within an included scope, an identifier with exactly
one recorded occurrence is omitted from the rendered detail, and an
identifier with more than one occurrence is emitted with its occurrence
count and its ordered occurrence list. -/
theorem c6_report_content (fn : String) (es : List Event) (st : ShadowCounter)
    (h : runEvents (ShadowCounter.new fn) es = Except.ok st) :
    (∀ r : FuncReport, r ∈ print_visitor st ↔
        ∃ f ∈ st.funcs, f.has_shadow = true ∧
          r = FuncReport.mk f.name f.loc (renderFunction f.vars)) ∧
    (∀ f ∈ st.funcs, ∀ (k : String) (c : Count), lookupVar f.vars k = some c →
        ((c.locs.length = 1 → ∀ v ∈ renderFunction f.vars, v.ident ≠ k) ∧
         (1 < c.locs.length →
           VarReport.mk k c.locs.length c.locs ∈ renderFunction f.vars))) := by
  have hinv := runEvents_inv es _ _ (stateInv_new fn) h
  refine ⟨fun r => mem_print_visitor st r, ?_⟩
  intro f hf k c hlk
  obtain ⟨hnd, hok2, hsh⟩ := hinv.1 f hf
  constructor
  · intro hone v hv hvk
    obtain ⟨kc2, hm2, hl2, hveq⟩ := (mem_renderFunction f.vars v).mp hv
    have hk2 : kc2.1 = k := by
      rw [hveq] at hvk
      exact hvk
    have hl3 : lookupVar f.vars kc2.1 = some kc2.2 :=
      mem_lookup_of_nodup f.vars kc2.1 kc2.2 hnd hm2
    rw [hk2, hlk] at hl3
    injection hl3 with hl3
    rw [hl3] at hone
    exact hl2 hone
  · intro hgt
    have hm : (k, c) ∈ f.vars := lookup_mem f.vars k c hlk
    exact (mem_renderFunction f.vars _).mpr ⟨(k, c), hm, Nat.ne_of_gt hgt, rfl⟩

/-- Witness for C6 on scenario A. -/
theorem c6_witness :
    (FuncReport.mk "f" 1 [VarReport.mk "x" 2 [Case.mk 2 true, Case.mk 3 false]] ∈
        print_visitor scenarioA_state ↔
      ∃ f ∈ scenarioA_state.funcs, f.has_shadow = true ∧
        FuncReport.mk "f" 1 [VarReport.mk "x" 2 [Case.mk 2 true, Case.mk 3 false]] =
          FuncReport.mk f.name f.loc (renderFunction f.vars)) ∧
    ((Count.mk [Case.mk 2 true, Case.mk 3 false]).locs.length = 1 →
        ∀ v ∈ renderFunction scenarioA_func.vars, v.ident ≠ "x") ∧
    (1 < (Count.mk [Case.mk 2 true, Case.mk 3 false]).locs.length →
        VarReport.mk "x" (Count.mk [Case.mk 2 true, Case.mk 3 false]).locs.length
            (Count.mk [Case.mk 2 true, Case.mk 3 false]).locs ∈
          renderFunction scenarioA_func.vars) :=
  ⟨(c6_report_content "a.rs" scenarioA scenarioA_state rfl).1
      (FuncReport.mk "f" 1 [VarReport.mk "x" 2 [Case.mk 2 true, Case.mk 3 false]]),
   ((c6_report_content "a.rs" scenarioA scenarioA_state rfl).2 scenarioA_func (by decide) "x"
      (Count.mk [Case.mk 2 true, Case.mk 3 false]) rfl).1,
   ((c6_report_content "a.rs" scenarioA scenarioA_state rfl).2 scenarioA_func (by decide) "x"
      (Count.mk [Case.mk 2 true, Case.mk 3 false]) rfl).2⟩

/-- C7: identifier extraction is a flat scan over the declaration's
top-level pattern list: exactly the plain identifier patterns contribute
an identifier, and every compound/destructuring pattern (tuple, struct)
contributes none — in particular `let (a, b) = ...` yields no recorded
bindings. -/
theorem c7_flat_extraction :
    (∀ pats : List Pat, get_idents pats =
        pats.filterMap fun p => match p with | Pat.ident i => some i | _ => none) ∧
    (∀ elems : List Pat, get_idents [Pat.tuple elems] = []) ∧
    (∀ fields : List Pat, get_idents [Pat.structPat fields] = []) ∧
    get_idents [Pat.tuple [Pat.ident ⟨"a", 1⟩, Pat.ident ⟨"b", 1⟩]] = [] := by
  refine ⟨?_, fun elems => rfl, fun fields => rfl, rfl⟩
  intro pats
  induction pats with
  | nil => rfl
  | cons p rest ih =>
    cases p <;> simp [get_idents, List.filterMap_cons, ih]

/-- C8: the analysis is deterministic — two complete runs over equal
callback streams of the same file yield identical state content: the same
scopes in the same discovery order with the same binding maps and
`has_shadow` flags. -/
theorem c8_deterministic (fn : String) (es1 es2 : List Event) (st1 st2 : ShadowCounter)
    (h : es1 = es2)
    (h1 : runEvents (ShadowCounter.new fn) es1 = Except.ok st1)
    (h2 : runEvents (ShadowCounter.new fn) es2 = Except.ok st2) :
    st1.funcs = st2.funcs ∧ st1.has_shadow = st2.has_shadow := by
  subst h
  rw [h1] at h2
  injection h2 with h2
  subst h2
  exact ⟨rfl, rfl⟩

/-- Witness for C8: two runs of scenario A. -/
theorem c8_witness :
    scenarioA_state.funcs = scenarioA_state.funcs ∧
    scenarioA_state.has_shadow = scenarioA_state.has_shadow :=
  c8_deterministic "a.rs" scenarioA scenarioA scenarioA_state scenarioA_state rfl rfl rfl

/-- C9: a local declaration whose pattern yields no simple identifiers
(e.g. a tuple or struct destructuring) leaves the entire analysis state
unchanged whenever at least one scope is open. -/
theorem c9_no_idents_frame (st : ShadowCounter) (pats : List Pat)
    (h1 : get_idents pats = []) (h2 : st.funcs ≠ []) :
    visit_local st pats = Except.ok st := by
  rcases List.eq_nil_or_concat st.funcs with e | ⟨fs, a, hsplit⟩
  · exact absurd e h2
  · rw [List.concat_eq_append] at hsplit
    rw [visit_local_concat st fs a pats hsplit, h1]
    show Except.ok { st with funcs := fs ++ [a], has_shadow := st.has_shadow } = Except.ok st
    rw [← hsplit]

/-- Witness for C9: a tuple destructuring inside an open scope. -/
theorem c9_witness :
    visit_local ⟨[Function.new "f" 1], "w9.rs", false⟩
        [Pat.tuple [Pat.ident ⟨"a", 2⟩, Pat.ident ⟨"b", 2⟩]] =
      Except.ok ⟨[Function.new "f" 1], "w9.rs", false⟩ :=
  c9_no_idents_frame ⟨[Function.new "f" 1], "w9.rs", false⟩
    [Pat.tuple [Pat.ident ⟨"a", 2⟩, Pat.ident ⟨"b", 2⟩]] rfl (by decide)

/-- C10: a single local declaration whose or-pattern binds the same fresh
identifier twice records two occurrences of it in the current scope — the
second with `is_original = false` — and sets both the scope's and the
file's `has_shadow` flags, although only one declaration statement is
involved. -/
theorem c10_or_pattern_self_shadow (st : ShadowCounter) (fs : List Function) (fc : Function)
    (name : String) (l1 l2 : Nat)
    (h : st.funcs = fs ++ [fc]) (h2 : lookupVar fc.vars name = none) :
    ∃ fc',
      visit_local st [Pat.ident ⟨name, l1⟩, Pat.ident ⟨name, l2⟩] =
        Except.ok { st with funcs := fs ++ [fc'], has_shadow := true } ∧
      lookupVar fc'.vars name = some (Count.mk [Case.mk l1 true, Case.mk l2 false]) ∧
      fc'.has_shadow = true := by
  have e1 : applyIdent fc st.has_shadow ⟨name, l1⟩ =
      ({ fc with vars := fc.vars ++ [(name, Count.mk [Case.mk l1 true])] }, st.has_shadow) :=
    applyIdent_absent fc st.has_shadow ⟨name, l1⟩ h2
  have hv1 : lookupVar (fc.vars ++ [(name, Count.mk [Case.mk l1 true])]) name =
      some (Count.mk [Case.mk l1 true]) := by
    rw [← setVar_absent fc.vars name (Count.mk [Case.mk l1 true]) h2]
    exact lookup_setVar_self fc.vars name (Count.mk [Case.mk l1 true])
  have e2 : applyIdent { fc with vars := fc.vars ++ [(name, Count.mk [Case.mk l1 true])] }
      st.has_shadow ⟨name, l2⟩ =
      ({ fc with
          vars := setVar (fc.vars ++ [(name, Count.mk [Case.mk l1 true])]) name
            (Count.mk [Case.mk l1 true, Case.mk l2 false]),
          has_shadow := true },
        true) :=
    applyIdent_present _ st.has_shadow ⟨name, l2⟩ (Count.mk [Case.mk l1 true]) hv1 (by simp)
  refine ⟨{ fc with
      vars := setVar (fc.vars ++ [(name, Count.mk [Case.mk l1 true])]) name
        (Count.mk [Case.mk l1 true, Case.mk l2 false]),
      has_shadow := true }, ?_, ?_, rfl⟩
  · rw [visit_local_concat st fs fc _ h]
    have happ : applyIdents fc st.has_shadow
        (get_idents [Pat.ident ⟨name, l1⟩, Pat.ident ⟨name, l2⟩]) =
        ({ fc with
            vars := setVar (fc.vars ++ [(name, Count.mk [Case.mk l1 true])]) name
              (Count.mk [Case.mk l1 true, Case.mk l2 false]),
            has_shadow := true },
          true) := by
      show applyIdents fc st.has_shadow [⟨name, l1⟩, ⟨name, l2⟩] = _
      simp only [applyIdents, e1, e2]
    rw [happ]
  · exact lookup_setVar_self _ name _

/-- Witness for C10: `let x | x = ...` (lines 2 and 2) in a fresh scope. -/
theorem c10_witness :
    ∃ fc',
      visit_local ⟨[Function.new "f" 1], "w10.rs", false⟩
          [Pat.ident ⟨"x", 2⟩, Pat.ident ⟨"x", 2⟩] =
        Except.ok { (⟨[Function.new "f" 1], "w10.rs", false⟩ : ShadowCounter) with
          funcs := [] ++ [fc'], has_shadow := true } ∧
      lookupVar fc'.vars "x" = some (Count.mk [Case.mk 2 true, Case.mk 2 false]) ∧
      fc'.has_shadow = true :=
  c10_or_pattern_self_shadow ⟨[Function.new "f" 1], "w10.rs", false⟩ [] (Function.new "f" 1)
    "x" 2 2 rfl rfl

end CargoLight
